import Mathlib

/-!
Shallow embedding of the `fetch_unroll` crate (src/lib.rs): the archive
unrolling pipeline (gzip + tar extraction with path-component stripping and
common-ancestor auto-detection), the destination reconciliation of
`Unroll::to` and `Save::to`, and the HTTP error mapping.

Paths are modelled as lists of components (`Path::iter` in the source walks
components), file contents as lists of bytes.  The external collaborators
(ureq, libflate, tar-rs) are not part of the repository source; where their
behaviour decides an outcome it is modelled from the spec, and each such
definition says so in its doc comment.
-/

set_option autoImplicit false

namespace FetchUnroll

/-- Tar entry classification used by the source: `TarEntryType::Directory`,
`TarEntryType::Regular`, and everything else (symlinks, hardlinks, devices,
…) collapsed into `other`, matching the `_` match arms in
`unroll_archive_to` and `count_common_components`. -/
inductive EntryType where
  | directory
  | regular
  | other
deriving DecidableEq, Repr

/-- One tar archive entry: declared path (as component list), entry type and
content bytes.  `unpack_ok` is modelled from the spec: `entry.unpack` is a
filesystem write performed by the external tar library, and the spec's
rollback property speaks of "a crafted entry causing a write error"; the
flag records whether the OS write for this entry succeeds. -/
structure Entry where
  entryType : EntryType
  path : List String
  content : List Nat
  unpack_ok : Bool
deriving DecidableEq, Repr

/-- A filesystem object created under the destination root by extraction. -/
inductive Item where
  | dir (path : List String)
  | file (path : List String) (content : List Nat)
deriving DecidableEq, Repr

/-- The crate's error type.  The source has `Error::Http(String)` and
`Error::Io(IoError)`; the opaque `IoError` payloads are refined here into
the three I/O failure sources the pipeline distinguishes: gzip/tar decode
failure, a failed write of an archive entry, and an unusable destination
path. -/
inductive Error where
  | http (message : String)
  | decode
  | ioWrite
  | fsDest
deriving DecidableEq, Repr

/-- Modelled from the spec: gzip decoding plus tar parsing of the fetched
bytes (libflate's `GzipDecoder` and tar-rs, both external) either yields the
archive's entry sequence or fails with a decode error (spec 4.2, 4.3). -/
inductive Payload where
  | valid (entries : List Entry)
  | invalid
deriving DecidableEq, Repr

/-! ### Option flags (`type Flag = u8` and the bit constants) -/

def CREATE_DEST_PATH : Nat := 1
def FORCE_OVERWRITE : Nat := 2
def FIX_INVALID_DEST : Nat := 4
def CLEANUP_ON_ERROR : Nat := 8
def CLEANUP_DEST_DIR : Nat := 16
def STRIP_WHEN_ALONE : Nat := 32

def DEFAULT_SAVE_FLAGS : Nat :=
  CREATE_DEST_PATH ||| FORCE_OVERWRITE ||| FIX_INVALID_DEST ||| CLEANUP_ON_ERROR

def DEFAULT_UNROLL_FLAGS : Nat :=
  CREATE_DEST_PATH ||| FIX_INVALID_DEST ||| CLEANUP_ON_ERROR ||| CLEANUP_DEST_DIR

/-- The source's flag-getter helper: `(var & key) == key`. -/
def flagGet (flags key : Nat) : Bool := flags &&& key == key

/-- The `UnrollOptions { strip_components, flags }` struct. -/
structure UnrollOptions where
  strip_components : Nat
  flags : Nat
deriving DecidableEq, Repr

/-- The `UnrollOptions::default()` impl. -/
def UnrollOptions.default : UnrollOptions :=
  { strip_components := 0, flags := DEFAULT_UNROLL_FLAGS }

/-- The `SaveOptions { flags }` struct. -/
structure SaveOptions where
  flags : Nat
deriving DecidableEq, Repr

/-- The `SaveOptions::default()` impl. -/
def SaveOptions.default : SaveOptions :=
  { flags := DEFAULT_SAVE_FLAGS }

/-! ### The extraction loop of `unroll_archive_to` (strip_components >= 1) -/

/-- The body of the per-entry match in `unroll_archive_to`: what one
iteration writes, if anything.  Directory entries drop `strip` leading
components and are skipped when nothing remains; regular entries clamp the
strip count to `path length - 1` (usize subtraction modelled as truncated
Nat subtraction; tar paths are nonempty in practice); all other entry types
fall to the `_` arm, which only prints. -/
def processEntry (strip : Nat) (e : Entry) : Option Item :=
  match e.entryType with
  | .directory =>
    let stripped_path := e.path.drop strip
    if stripped_path.length < 1 then none
    else some (.dir stripped_path)
  | .regular =>
    let strip_components := min strip (e.path.length - 1)
    some (.file (e.path.drop strip_components) e.content)
  | .other => none

/-- The `for entry in entries` loop of `unroll_archive_to`: entries are
written in order; a failing `entry.unpack` (modelled by `unpack_ok = false`)
aborts the loop with an I/O error, keeping what was already written. -/
def extractEntries (strip : Nat) : List Entry → List Item × Option Error
  | [] => ([], none)
  | e :: rest =>
    match processEntry strip e with
    | none => extractEntries strip rest
    | some item =>
      if e.unpack_ok then
        ((extractEntries strip rest).1.cons item, (extractEntries strip rest).2)
      else ([], some .ioWrite)

/-! ### `count_common_components` -/

/-- The `take_while`-zip in `count_common_components`: the longest common
leading run of equal components of two paths, stopping at the first
divergence. -/
def commonRoot : List String → List String → List String
  | a :: p, b :: q => if a = b then a :: commonRoot p q else []
  | _, _ => []

/-- The `for entry in archive.entries()` fold of `count_common_components`:
`common_ancestor` starts as `None`, is seeded by the first directory or
regular-file entry's path, and is then narrowed by `commonRoot` against each
further directory/regular entry; other entry types hit the `_ => ()` arm. -/
def commonAncestorLoop (acc : Option (List String)) :
    List Entry → Option (List String)
  | [] => acc
  | e :: rest =>
    match e.entryType with
    | .directory =>
      match acc with
      | none => commonAncestorLoop (some e.path) rest
      | some p => commonAncestorLoop (some (commonRoot p e.path)) rest
    | .regular =>
      match acc with
      | none => commonAncestorLoop (some e.path) rest
      | some p => commonAncestorLoop (some (commonRoot p e.path)) rest
    | .other => commonAncestorLoop acc rest

/-- Function `count_common_components`: component count of the common ancestor, `0`
when the archive has no directory or regular-file entry
(`common_ancestor.map_or(0, |path| path.iter().count())`). -/
def count_common_components (entries : List Entry) : Nat :=
  (commonAncestorLoop none entries).elim 0 List.length

/-- Whether an entry is matched by the `Directory | Regular` arm (the
entries that participate in extraction and in common-ancestor counting). -/
def isDirOrReg (e : Entry) : Bool :=
  match e.entryType with
  | .directory => true
  | .regular => true
  | .other => false

/-! ### `unroll_archive_to` -/

/-- Modelled from the spec: the `strip_components < 1` branch of
`unroll_archive_to` delegates to the external tar library's
`archive.unpack(destin)`, which per spec 4.4 writes each directory and
regular-file entry at its unmodified path under the destination and does
not extract other entry types; a directory entry whose path is empty
denotes the destination root itself, which already exists, so it produces
nothing.  A failing entry write aborts with the I/O error. -/
def unpackAll : List Entry → List Item × Option Error
  | [] => ([], none)
  | e :: rest =>
    match e.entryType with
    | .directory =>
      if e.path = [] then unpackAll rest
      else if e.unpack_ok then
        ((unpackAll rest).1.cons (.dir e.path), (unpackAll rest).2)
      else ([], some .ioWrite)
    | .regular =>
      if e.unpack_ok then
        ((unpackAll rest).1.cons (.file e.path e.content), (unpackAll rest).2)
      else ([], some .ioWrite)
    | .other => unpackAll rest

/-- Function `unroll_archive_to`: construct the gzip decoder (failing on an invalid
payload before anything is written), then either stream-unpack everything
(`strip_components < 1`) or buffer the decoded data, optionally run the
common-ancestor pass to clamp the strip count (`STRIP_WHEN_ALONE`), and run
the per-entry extraction loop.  Returns what was written under the
destination root together with the error, if any. -/
def unroll_archive_to (options : UnrollOptions) (source : Payload) :
    List Item × Option Error :=
  match source with
  | .invalid => ([], some .decode)
  | .valid entries =>
    if options.strip_components < 1 then
      unpackAll entries
    else
      let strip_components :=
        if flagGet options.flags STRIP_WHEN_ALONE then
          min options.strip_components (count_common_components entries)
        else
          options.strip_components
      extractEntries strip_components entries

/-! ### Destination reconciliation: `Unroll::to` and `Save::to`

The destination path is modelled by what currently sits at it: nothing, a
regular file with its bytes, or a directory with the items under it.
Filesystem primitives (`remove_file`, `remove_dir_all`, `create_dir_all`,
`remove_dir_entries`) are modelled as the corresponding state changes and
are assumed to succeed, as in the spec's reconciler description (spec 4.5);
the spec notes rollback itself is best-effort. -/

/-- The state of the destination path on the filesystem. -/
inductive DestState where
  | absent
  | file (content : List Nat)
  | dir (items : List Item)
deriving DecidableEq, Repr

/-- Method `Unroll::to`: `source?` first (a fetch failure returns before anything
touches the filesystem); then probe the destination and reconcile it
(existing directory: record `dest_already_exists`, clear children when
`CLEANUP_DEST_DIR`; existing file: remove and recreate as a directory under
`FIX_INVALID_DEST` / `CREATE_DEST_PATH`; absent: create under
`CREATE_DEST_PATH`); then run `unroll_archive_to`, and on its failure, when
`CLEANUP_ON_ERROR` is set and the path is a directory, remove its entries
(pre-existing destination) or the whole directory (newly created one),
propagating the original error.  When the reconciled destination is not a
directory the extraction step fails (modelled from the spec and the
function's own documented errors: "Destination directory does not exists
when `create_dest_path` is not set", "Destination path is not a directory
when `fix_invalid_dest` is not set"); the cleanup branch then does not fire
because `path.is_dir()` is false.  Returns the error, if any, and the final
destination state. -/
def Unroll.to (source : Except Error Payload) (options : UnrollOptions)
    (dest : DestState) : Option Error × DestState :=
  match source with
  | .error e => (some e, dest)
  | .ok payload =>
    let dest_already_exists : Bool :=
      match dest with
      | .dir _ => true
      | _ => false
    let reconciled : DestState :=
      match dest with
      | .dir items =>
        if flagGet options.flags CLEANUP_DEST_DIR then .dir [] else .dir items
      | .file c =>
        if flagGet options.flags FIX_INVALID_DEST then
          if flagGet options.flags CREATE_DEST_PATH then .dir [] else .absent
        else .file c
      | .absent =>
        if flagGet options.flags CREATE_DEST_PATH then .dir [] else .absent
    match reconciled with
    | .dir base =>
      match unroll_archive_to options payload with
      | (items, none) => (none, .dir (base ++ items))
      | (items, some e) =>
        if flagGet options.flags CLEANUP_ON_ERROR then
          if dest_already_exists then (some e, .dir [])
          else (some e, .absent)
        else (some e, .dir (base ++ items))
    | .file c => (some .fsDest, .file c)
    | .absent => (some .fsDest, .absent)

/-- Method `Save::to`: `source?` first (a fetch failure returns before anything
touches the filesystem); an existing file is removed and rewritten under
`FORCE_OVERWRITE` and otherwise left untouched with `Ok(())` returned
before any copy; an existing directory is removed under `FIX_INVALID_DEST`
and otherwise makes the write fail (and the cleanup branch does not remove
anything, since `path.is_file()` is false); an absent destination has its
parent directories created under `CREATE_DEST_PATH`.  The copy itself is
modelled as succeeding (parent directories available); no claim exercises a
failing copy. -/
def Save.to (source : Except Error (List Nat)) (options : SaveOptions)
    (dest : DestState) : Option Error × DestState :=
  match source with
  | .error e => (some e, dest)
  | .ok bytes =>
    match dest with
    | .file c =>
      if flagGet options.flags FORCE_OVERWRITE then (none, .file bytes)
      else (none, .file c)
    | .dir items =>
      if flagGet options.flags FIX_INVALID_DEST then (none, .file bytes)
      else (some .fsDest, .dir items)
    | .absent => (none, .file bytes)

/-! ### HTTP fetch and error mapping -/

/-- An HTTP response as the transport delivers it: final status code, the
status line's human-readable reason phrase, and the body bytes. -/
structure HttpResponse where
  code : Nat
  reason : String
  body : List Nat
deriving DecidableEq, Repr

/-- ureq's error type as matched by the source's `From<&HttpError>` impl:
`Status(code, response)` (the response carrying the reason phrase) or
`Transport(transport)`. -/
inductive HttpError where
  | status (code : Nat) (reason : String)
  | transport (message : String)
deriving DecidableEq, Repr

/-- The `From<&HttpError> for Error` impl: a status error is formatted as
`"Invalid status: {code}"` and a transport error as
`"Transport error: {transport}"`. -/
def Error.fromHttp : HttpError → Error
  | .status code _ => .http ("Invalid status: " ++ toString code)
  | .transport message => .http ("Transport error: " ++ message)

/-- Function `http_fetch`: the ureq call itself is external; modelled from the spec
(4.1): a final 2xx status yields the body stream, any other final status
fails with ureq's `Status` error, which the source maps through
`Error.fromHttp`. -/
def http_fetch (response : HttpResponse) : Except Error (List Nat) :=
  if 200 ≤ response.code && response.code ≤ 299 then .ok response.body
  else .error (Error.fromHttp (.status response.code response.reason))

/-- The source's flag-setter helper on the `u8` flags field:
set the bit, or clear it with the complement (`!key` on `u8`). -/
def flagSet (flags key : Nat) (value : Bool) : Nat :=
  if value then flags ||| key else flags &&& (255 ^^^ key)

/-! ### Helper lemmas -/

theorem commonRoot_prefix_left : ∀ p q : List String, commonRoot p q <+: p := by
  intro p
  induction p with
  | nil => intro q; cases q <;> simp [commonRoot]
  | cons a p ih =>
    intro q
    cases q with
    | nil => simp [commonRoot]
    | cons b q =>
      by_cases h : a = b
      · simpa [commonRoot, h, List.cons_prefix_cons] using ih q
      · simp [commonRoot, h]

theorem commonRoot_prefix_right : ∀ p q : List String, commonRoot p q <+: q := by
  intro p
  induction p with
  | nil => intro q; cases q <;> simp [commonRoot]
  | cons a p ih =>
    intro q
    cases q with
    | nil => simp [commonRoot]
    | cons b q =>
      by_cases h : a = b
      · simpa [commonRoot, h, List.cons_prefix_cons] using ih q
      · simp [commonRoot, h]

theorem prefix_commonRoot :
    ∀ r p q : List String, r <+: p → r <+: q → r <+: commonRoot p q := by
  intro r
  induction r with
  | nil => intro p q _ _; exact List.nil_prefix
  | cons c r ih =>
    intro p q hp hq
    cases p with
    | nil => exact absurd (List.prefix_nil.mp hp) (by simp)
    | cons a p =>
      cases q with
      | nil => exact absurd (List.prefix_nil.mp hq) (by simp)
      | cons b q =>
        obtain ⟨rfl, hp'⟩ := List.cons_prefix_cons.mp hp
        obtain ⟨rfl, hq'⟩ := List.cons_prefix_cons.mp hq
        simpa [commonRoot, List.cons_prefix_cons] using ih p q hp' hq'

theorem commonAncestorLoop_some_spec :
    ∀ (es : List Entry) (p : List String),
      ∃ r, commonAncestorLoop (some p) es = some r
        ∧ r <+: p
        ∧ (∀ e ∈ es, isDirOrReg e = true → r <+: e.path)
        ∧ ∀ q, q <+: p →
            (∀ e ∈ es, isDirOrReg e = true → q <+: e.path) → q <+: r := by
  intro es
  induction es with
  | nil =>
    intro p
    exact ⟨p, rfl, List.prefix_refl p, by simp, fun q hq _ => hq⟩
  | cons e rest ih =>
    intro p
    cases he : e.entryType with
    | other =>
      obtain ⟨r, hr, hrp, hall, hmax⟩ := ih p
      refine ⟨r, ?_, hrp, ?_, ?_⟩
      · simpa [commonAncestorLoop, he] using hr
      · intro e' he' hd
        rcases List.mem_cons.mp he' with rfl | hmem
        · simp [isDirOrReg, he] at hd
        · exact hall e' hmem hd
      · intro q hq hqall
        exact hmax q hq fun e' he' hd => hqall e' (List.mem_cons_of_mem _ he') hd
    | directory =>
      obtain ⟨r, hr, hrp, hall, hmax⟩ := ih (commonRoot p e.path)
      refine ⟨r, ?_, hrp.trans (commonRoot_prefix_left p e.path), ?_, ?_⟩
      · simpa [commonAncestorLoop, he] using hr
      · intro e' he' hd
        rcases List.mem_cons.mp he' with rfl | hmem
        · exact hrp.trans (commonRoot_prefix_right p e'.path)
        · exact hall e' hmem hd
      · intro q hq hqall
        refine hmax q (prefix_commonRoot q p e.path hq ?_) fun e' he' hd =>
          hqall e' (List.mem_cons_of_mem _ he') hd
        exact hqall e (List.mem_cons_self e rest) (by simp [isDirOrReg, he])
    | regular =>
      obtain ⟨r, hr, hrp, hall, hmax⟩ := ih (commonRoot p e.path)
      refine ⟨r, ?_, hrp.trans (commonRoot_prefix_left p e.path), ?_, ?_⟩
      · simpa [commonAncestorLoop, he] using hr
      · intro e' he' hd
        rcases List.mem_cons.mp he' with rfl | hmem
        · exact hrp.trans (commonRoot_prefix_right p e'.path)
        · exact hall e' hmem hd
      · intro q hq hqall
        refine hmax q (prefix_commonRoot q p e.path hq ?_) fun e' he' hd =>
          hqall e' (List.mem_cons_of_mem _ he') hd
        exact hqall e (List.mem_cons_self e rest) (by simp [isDirOrReg, he])

theorem commonAncestorLoop_none_spec :
    ∀ es : List Entry, (∃ e ∈ es, isDirOrReg e = true) →
      ∃ r, commonAncestorLoop none es = some r
        ∧ (∀ e ∈ es, isDirOrReg e = true → r <+: e.path)
        ∧ ∀ q, (∀ e ∈ es, isDirOrReg e = true → q <+: e.path) → q <+: r := by
  intro es
  induction es with
  | nil => rintro ⟨e, he, _⟩; simp at he
  | cons e rest ih =>
    intro hex
    cases he : e.entryType with
    | other =>
      obtain ⟨e', he', hd'⟩ := hex
      rcases List.mem_cons.mp he' with rfl | hmem
      · simp [isDirOrReg, he] at hd'
      obtain ⟨r, hr, hall, hmax⟩ := ih ⟨e', hmem, hd'⟩
      refine ⟨r, by simpa [commonAncestorLoop, he] using hr, ?_, ?_⟩
      · intro e'' he'' hd''
        rcases List.mem_cons.mp he'' with rfl | hmem'
        · simp [isDirOrReg, he] at hd''
        · exact hall e'' hmem' hd''
      · intro q hqall
        exact hmax q fun e'' he'' hd'' =>
          hqall e'' (List.mem_cons_of_mem _ he'') hd''
    | directory =>
      obtain ⟨r, hr, hrp, hall, hmax⟩ := commonAncestorLoop_some_spec rest e.path
      refine ⟨r, by simpa [commonAncestorLoop, he] using hr, ?_, ?_⟩
      · intro e' he' hd
        rcases List.mem_cons.mp he' with rfl | hmem
        · exact hrp
        · exact hall e' hmem hd
      · intro q hqall
        refine hmax q ?_ fun e' he' hd =>
          hqall e' (List.mem_cons_of_mem _ he') hd
        exact hqall e (List.mem_cons_self e rest) (by simp [isDirOrReg, he])
    | regular =>
      obtain ⟨r, hr, hrp, hall, hmax⟩ := commonAncestorLoop_some_spec rest e.path
      refine ⟨r, by simpa [commonAncestorLoop, he] using hr, ?_, ?_⟩
      · intro e' he' hd
        rcases List.mem_cons.mp he' with rfl | hmem
        · exact hrp
        · exact hall e' hmem hd
      · intro q hqall
        refine hmax q ?_ fun e' he' hd =>
          hqall e' (List.mem_cons_of_mem _ he') hd
        exact hqall e (List.mem_cons_self e rest) (by simp [isDirOrReg, he])

theorem commonAncestorLoop_filter :
    ∀ (es : List Entry) (acc : Option (List String)),
      commonAncestorLoop acc (es.filter isDirOrReg) = commonAncestorLoop acc es := by
  intro es
  induction es with
  | nil => intro acc; rfl
  | cons e rest ih =>
    intro acc
    cases he : e.entryType with
    | other =>
      rw [List.filter_cons_of_neg (by simp [isDirOrReg, he])]
      simp [commonAncestorLoop, he, ih]
    | directory =>
      rw [List.filter_cons_of_pos (by simp [isDirOrReg, he])]
      cases acc <;> simp [commonAncestorLoop, he, ih]
    | regular =>
      rw [List.filter_cons_of_pos (by simp [isDirOrReg, he])]
      cases acc <;> simp [commonAncestorLoop, he, ih]

theorem count_common_components_filter (es : List Entry) :
    count_common_components (es.filter isDirOrReg) = count_common_components es := by
  simp [count_common_components, commonAncestorLoop_filter]

theorem extractEntries_filter :
    ∀ (strip : Nat) (es : List Entry),
      extractEntries strip (es.filter isDirOrReg) = extractEntries strip es := by
  intro strip es
  induction es with
  | nil => rfl
  | cons e rest ih =>
    cases he : e.entryType with
    | other =>
      rw [List.filter_cons_of_neg (by simp [isDirOrReg, he])]
      simp [extractEntries, processEntry, he, ih]
    | directory =>
      rw [List.filter_cons_of_pos (by simp [isDirOrReg, he])]
      simp only [extractEntries, processEntry, he, ih]
    | regular =>
      rw [List.filter_cons_of_pos (by simp [isDirOrReg, he])]
      simp only [extractEntries, processEntry, he, ih]

theorem unpackAll_filter :
    ∀ es : List Entry, unpackAll (es.filter isDirOrReg) = unpackAll es := by
  intro es
  induction es with
  | nil => rfl
  | cons e rest ih =>
    cases he : e.entryType with
    | other =>
      rw [List.filter_cons_of_neg (by simp [isDirOrReg, he])]
      simp [unpackAll, he, ih]
    | directory =>
      rw [List.filter_cons_of_pos (by simp [isDirOrReg, he])]
      simp only [unpackAll, he, ih]
    | regular =>
      rw [List.filter_cons_of_pos (by simp [isDirOrReg, he])]
      simp only [unpackAll, he, ih]

theorem extractEntries_zero :
    ∀ es : List Entry, extractEntries 0 es = unpackAll es := by
  intro es
  induction es with
  | nil => rfl
  | cons e rest ih =>
    cases he : e.entryType with
    | other => simp [extractEntries, unpackAll, processEntry, he, ih]
    | directory =>
      by_cases hp : e.path = []
      · simp [extractEntries, unpackAll, processEntry, he, hp, ih]
      · have hlen : ¬e.path.length < 1 := by
          simpa [Nat.lt_one_iff] using fun h => hp (List.length_eq_zero.mp h)
        simp [extractEntries, unpackAll, processEntry, he, hp, hlen, ih]
    | regular =>
      simp [extractEntries, unpackAll, processEntry, he, ih]

theorem getLast?_drop_of_lt {α : Type} (p : List α) (k : Nat)
    (h : k < p.length) : (p.drop k).getLast? = p.getLast? := by
  rw [List.getLast?_eq_getElem?, List.getLast?_eq_getElem?, List.getElem?_drop,
    List.length_drop]
  congr 1
  omega

theorem drop_ne_nil_of_lt {α : Type} (p : List α) (k : Nat)
    (h : k < p.length) : p.drop k ≠ [] := by
  intro hnil
  have := List.length_drop k p
  rw [hnil] at this
  simp at this
  omega

theorem unroll_archive_to_valid (o : UnrollOptions) (es : List Entry) :
    unroll_archive_to o (.valid es) =
      if o.strip_components < 1 then unpackAll es
      else
        extractEntries
          (if flagGet o.flags STRIP_WHEN_ALONE then
            min o.strip_components (count_common_components es)
          else o.strip_components) es := rfl

/-! ### Claim theorems -/

/-- C1: for every gzip-compressed tar archive whose directory and
regular-file entries share a common leading path prefix of depth `D` (the
computed common-ancestor depth) and every strip count `N ≥ 0`, extraction
with `strip_components = N` and `strip_when_alone = true` produces exactly
the same result as extraction with `strip_components = min N D` and
`strip_when_alone = false`. -/
theorem unroll_strip_when_alone_eq_min_strip
    (n D f g : Nat) (es : List Entry)
    (hf : flagGet f STRIP_WHEN_ALONE = true)
    (hg : flagGet g STRIP_WHEN_ALONE = false)
    (hD : count_common_components es = D) :
    unroll_archive_to ⟨n, f⟩ (.valid es) =
      unroll_archive_to ⟨min n D, g⟩ (.valid es) := by
  subst hD
  rw [unroll_archive_to_valid, unroll_archive_to_valid]
  simp only [hf, hg, if_true, if_false, Bool.false_eq_true]
  by_cases hn : n < 1
  · have hn0 : n = 0 := by omega
    subst hn0
    simp [Nat.zero_min]
  · rw [if_neg hn]
    by_cases hmin : min n (count_common_components es) < 1
    · have h0 : min n (count_common_components es) = 0 := by omega
      rw [h0, if_pos (by omega : (0 : Nat) < 1)]
      exact extractEntries_zero es
    · rw [if_neg hmin]

/-- C1 witness: an archive rooted in `pkg` (depth 1), strip count 5. -/
theorem unroll_strip_when_alone_eq_min_strip_witness :
    flagGet (DEFAULT_UNROLL_FLAGS ||| STRIP_WHEN_ALONE) STRIP_WHEN_ALONE = true
    ∧ flagGet DEFAULT_UNROLL_FLAGS STRIP_WHEN_ALONE = false
    ∧ count_common_components
        [⟨.regular, ["pkg", "bin", "tool"], [1], true⟩,
         ⟨.regular, ["pkg", "README"], [2], true⟩] = 1
    ∧ unroll_archive_to ⟨5, DEFAULT_UNROLL_FLAGS ||| STRIP_WHEN_ALONE⟩
        (.valid
          [⟨.regular, ["pkg", "bin", "tool"], [1], true⟩,
           ⟨.regular, ["pkg", "README"], [2], true⟩]) =
      unroll_archive_to ⟨min 5 1, DEFAULT_UNROLL_FLAGS⟩
        (.valid
          [⟨.regular, ["pkg", "bin", "tool"], [1], true⟩,
           ⟨.regular, ["pkg", "README"], [2], true⟩]) :=
  ⟨by decide, by decide, by decide,
    unroll_strip_when_alone_eq_min_strip 5 1 _ _ _
      (by decide) (by decide) (by decide)⟩

/-- C2: for an archive whose directory and regular-file entries share no
common leading component (computed depth 0) and any strip count `N > 0`
with `strip_when_alone = true`, extraction behaves exactly as with strip
count 0: no stripping occurs. -/
theorem unroll_no_common_root_strips_nothing
    (n f g : Nat) (es : List Entry)
    (hn : 1 ≤ n)
    (hf : flagGet f STRIP_WHEN_ALONE = true)
    (hD : count_common_components es = 0) :
    unroll_archive_to ⟨n, f⟩ (.valid es) =
      unroll_archive_to ⟨0, g⟩ (.valid es) := by
  rw [unroll_archive_to_valid, unroll_archive_to_valid]
  simp only [hf, if_true, hD, Nat.min_zero]
  rw [if_neg (by omega), if_pos (by omega)]
  exact extractEntries_zero es

/-- C2 witness: two entries diverging at the first component, strip 3. -/
theorem unroll_no_common_root_strips_nothing_witness :
    1 ≤ 3
    ∧ flagGet (DEFAULT_UNROLL_FLAGS ||| STRIP_WHEN_ALONE) STRIP_WHEN_ALONE = true
    ∧ count_common_components
        [⟨.regular, ["a", "x"], [1], true⟩,
         ⟨.directory, ["b"], [], true⟩] = 0
    ∧ unroll_archive_to ⟨3, DEFAULT_UNROLL_FLAGS ||| STRIP_WHEN_ALONE⟩
        (.valid
          [⟨.regular, ["a", "x"], [1], true⟩,
           ⟨.directory, ["b"], [], true⟩]) =
      unroll_archive_to ⟨0, DEFAULT_UNROLL_FLAGS⟩
        (.valid
          [⟨.regular, ["a", "x"], [1], true⟩,
           ⟨.directory, ["b"], [], true⟩]) :=
  ⟨by decide, by decide, by decide,
    unroll_no_common_root_strips_nothing 3 _ _ _
      (by decide) (by decide) (by decide)⟩

/-- C4: with a non-zero configured strip count and `strip_when_alone` not
requested, the configured count is applied per entry: the extraction is the
per-entry loop at exactly the configured count; a directory entry with no
components left after stripping is skipped (nothing written for it); a
regular-file entry uses the effective count `min configured (components-1)`
and therefore always keeps its final name component. -/
theorem unroll_fixed_strip_per_entry
    (n f : Nat) (es : List Entry)
    (hn : 1 ≤ n)
    (hf : flagGet f STRIP_WHEN_ALONE = false) :
    unroll_archive_to ⟨n, f⟩ (.valid es) = extractEntries n es
    ∧ (∀ e : Entry, e.entryType = .directory → e.path.drop n = [] →
        processEntry n e = none)
    ∧ (∀ e : Entry, e.entryType = .regular →
        processEntry n e =
          some (.file (e.path.drop (min n (e.path.length - 1))) e.content))
    ∧ ∀ e : Entry, e.entryType = .regular → e.path ≠ [] →
        (e.path.drop (min n (e.path.length - 1))).getLast? = e.path.getLast?
        ∧ e.path.drop (min n (e.path.length - 1)) ≠ [] := by
  refine ⟨?_, ?_, ?_, ?_⟩
  · rw [unroll_archive_to_valid, if_neg (by omega : ¬n < 1)]
    simp [hf]
  · intro e he hdrop
    simp [processEntry, he, hdrop]
  · intro e he
    simp [processEntry, he]
  · intro e he hp
    have hlen : 1 ≤ e.path.length := List.length_pos.mpr hp
    have hle : min n (e.path.length - 1) ≤ e.path.length - 1 :=
      Nat.min_le_right _ _
    have hk : min n (e.path.length - 1) < e.path.length := by omega
    exact ⟨getLast?_drop_of_lt _ _ hk, drop_ne_nil_of_lt _ _ hk⟩

/-- C4 witness: strip 2 over a wrapper directory of depth 1 and a deep
file; the directory entry is skipped, the file keeps its name. -/
theorem unroll_fixed_strip_per_entry_witness :
    1 ≤ 2
    ∧ flagGet DEFAULT_UNROLL_FLAGS STRIP_WHEN_ALONE = false
    ∧ unroll_archive_to ⟨2, DEFAULT_UNROLL_FLAGS⟩
        (.valid
          [⟨.directory, ["pkg"], [], true⟩,
           ⟨.regular, ["pkg", "lib", "lib.so"], [3], true⟩]) =
      extractEntries 2
        [⟨.directory, ["pkg"], [], true⟩,
         ⟨.regular, ["pkg", "lib", "lib.so"], [3], true⟩]
    ∧ processEntry 2 ⟨.directory, ["pkg"], [], true⟩ = none
    ∧ processEntry 2 ⟨.regular, ["pkg", "lib", "lib.so"], [3], true⟩ =
        some (.file (["pkg", "lib", "lib.so"].drop (min 2 2)) [3]) :=
  ⟨by decide, by decide,
    (unroll_fixed_strip_per_entry 2 _ _ (by decide) (by decide)).1,
    (unroll_fixed_strip_per_entry 2 DEFAULT_UNROLL_FLAGS [] (by decide)
        (by decide)).2.1 _ rfl (by decide),
    (unroll_fixed_strip_per_entry 2 DEFAULT_UNROLL_FLAGS [] (by decide)
        (by decide)).2.2.1 _ rfl⟩

/-- C5: with `strip_when_alone` requested and a non-zero configured count,
the effective strip count of the extraction pass is the minimum of the
configured count and the common-prefix depth; that depth is computed over
exactly the directory and regular-file entries (other types excluded), and
it is the length of a genuine longest common path prefix: a component list
that is a prefix of every directory/regular entry path and is at least as
long as any other such common prefix. -/
theorem unroll_strip_alone_detects_common_root
    (n f : Nat) (es : List Entry)
    (hn : 1 ≤ n)
    (hf : flagGet f STRIP_WHEN_ALONE = true) :
    unroll_archive_to ⟨n, f⟩ (.valid es)
        = extractEntries (min n (count_common_components es)) es
    ∧ count_common_components (es.filter isDirOrReg) = count_common_components es
    ∧ ((∃ e ∈ es, isDirOrReg e = true) →
        ∃ p : List String,
          p.length = count_common_components es
          ∧ (∀ e ∈ es, isDirOrReg e = true → p <+: e.path)
          ∧ ∀ q : List String,
              (∀ e ∈ es, isDirOrReg e = true → q <+: e.path) →
              q.length ≤ p.length) := by
  refine ⟨?_, count_common_components_filter es, ?_⟩
  · rw [unroll_archive_to_valid, if_neg (by omega : ¬n < 1)]
    simp [hf]
  · intro hex
    obtain ⟨r, hr, hall, hmax⟩ := commonAncestorLoop_none_spec es hex
    refine ⟨r, ?_, hall, fun q hq => (hmax q hq).length_le⟩
    simp [count_common_components, hr]

/-- C5 witness: a symlink entry diverging from the common root is excluded
from the computation; depth 1 is detected and clamps strip count 7. -/
theorem unroll_strip_alone_detects_common_root_witness :
    1 ≤ 7
    ∧ flagGet (DEFAULT_UNROLL_FLAGS ||| STRIP_WHEN_ALONE) STRIP_WHEN_ALONE = true
    ∧ unroll_archive_to ⟨7, DEFAULT_UNROLL_FLAGS ||| STRIP_WHEN_ALONE⟩
        (.valid
          [⟨.directory, ["pkg"], [], true⟩,
           ⟨.other, ["elsewhere", "link"], [], true⟩,
           ⟨.regular, ["pkg", "bin", "tool"], [1], true⟩]) =
      extractEntries
        (min 7 (count_common_components
          [⟨.directory, ["pkg"], [], true⟩,
           ⟨.other, ["elsewhere", "link"], [], true⟩,
           ⟨.regular, ["pkg", "bin", "tool"], [1], true⟩]))
        [⟨.directory, ["pkg"], [], true⟩,
         ⟨.other, ["elsewhere", "link"], [], true⟩,
         ⟨.regular, ["pkg", "bin", "tool"], [1], true⟩] :=
  ⟨by decide, by decide,
    (unroll_strip_alone_detects_common_root 7 _ _ (by decide) (by decide)).1⟩

/-- C6: for every archive and every unroll configuration, entries whose
type is neither directory nor regular file contribute nothing to the
destination and cause no error: extraction of the archive equals extraction
of the archive restricted to its directory and regular-file entries, both
in what is written and in the reported outcome. -/
theorem unroll_ignores_other_entries (o : UnrollOptions) (es : List Entry) :
    unroll_archive_to o (.valid (es.filter isDirOrReg)) =
      unroll_archive_to o (.valid es) := by
  rw [unroll_archive_to_valid, unroll_archive_to_valid]
  by_cases h1 : o.strip_components < 1
  · simp [h1, unpackAll_filter]
  · cases h2 : flagGet o.flags STRIP_WHEN_ALONE <;>
      simp [h1, h2, count_common_components_filter, extractEntries_filter]

/-- C3: whenever the extraction step of `Unroll::to` fails with
`cleanup_on_error` enabled, then for a destination that already existed as
a directory all current children are removed with the directory kept, for a
destination newly created by this call (absent before, created under
`create_dest_path`) the directory is removed entirely, and in both cases
the original extraction error is returned unchanged. -/
theorem unroll_cleanup_on_error_spec
    (o : UnrollOptions) (p : Payload) (items0 : List Item) (e : Error)
    (hc : flagGet o.flags CLEANUP_ON_ERROR = true)
    (hfail : (unroll_archive_to o p).2 = some e) :
    Unroll.to (.ok p) o (.dir items0) = (some e, .dir [])
    ∧ (flagGet o.flags CREATE_DEST_PATH = true →
        Unroll.to (.ok p) o .absent = (some e, .absent)) := by
  rcases hr : unroll_archive_to o p with ⟨its, err⟩
  rw [hr] at hfail
  simp only at hfail
  subst hfail
  constructor
  · cases hcd : flagGet o.flags CLEANUP_DEST_DIR <;>
      simp [Unroll.to, hcd, hr, hc]
  · intro hcr
    simp [Unroll.to, hcr, hr, hc]

/-- C3 witness: a malformed payload fails extraction; a pre-existing
destination keeps the emptied directory, an absent one is removed. -/
theorem unroll_cleanup_on_error_spec_witness :
    flagGet UnrollOptions.default.flags CLEANUP_ON_ERROR = true
    ∧ (unroll_archive_to UnrollOptions.default .invalid).2 = some .decode
    ∧ Unroll.to (.ok .invalid) UnrollOptions.default
        (.dir [.file ["old"] [1]]) = (some .decode, .dir [])
    ∧ Unroll.to (.ok .invalid) UnrollOptions.default .absent =
        (some .decode, .absent) :=
  ⟨by decide, by decide,
    (unroll_cleanup_on_error_spec UnrollOptions.default .invalid
        [.file ["old"] [1]] .decode (by decide) (by decide)).1,
    (unroll_cleanup_on_error_spec UnrollOptions.default .invalid
        [.file ["old"] [1]] .decode (by decide) (by decide)).2 (by decide)⟩

/-- C7 counterexample: the claim quantifies over every source, but
`Save::to` runs `source?` before the existing-file check, so a failed fetch
makes it return that error rather than success even with `force_overwrite`
disabled and a file present at the destination. -/
theorem save_error_source_not_success :
    Save.to (.error (.http "transport failure"))
        ⟨flagSet DEFAULT_SAVE_FLAGS FORCE_OVERWRITE false⟩ (.file [7]) =
      (some (.http "transport failure"), .file [7])
    ∧ (some (Error.http "transport failure") : Option Error) ≠ none :=
  ⟨rfl, by decide⟩

/-- C7 (amended): for every successfully fetched source and every path at
which a regular file already exists, `Save::to` with `force_overwrite`
disabled returns success and performs no copy, leaving the existing file's
bytes unchanged. -/
theorem save_existing_file_no_overwrite
    (bytes c : List Nat) (so : SaveOptions)
    (h : flagGet so.flags FORCE_OVERWRITE = false) :
    Save.to (.ok bytes) so (.file c) = (none, .file c) := by
  simp [Save.to, h]

/-- C7 witness: saving bytes `[9, 9]` over an existing file `[1, 2]` with
`force_overwrite` disabled succeeds and leaves `[1, 2]` in place. -/
theorem save_existing_file_no_overwrite_witness :
    flagGet (flagSet DEFAULT_SAVE_FLAGS FORCE_OVERWRITE false)
        FORCE_OVERWRITE = false
    ∧ Save.to (.ok [9, 9]) ⟨flagSet DEFAULT_SAVE_FLAGS FORCE_OVERWRITE false⟩
        (.file [1, 2]) = (none, .file [1, 2]) :=
  ⟨by decide, save_existing_file_no_overwrite [9, 9] [1, 2] _ (by decide)⟩

/-- C8 counterexample: two non-2xx responses with the same status code but
different reason phrases are mapped to the same error value, whose message
carries the numeric code; the error therefore does not carry the
human-readable reason phrase of the response. -/
theorem http_error_drops_reason_phrase :
    http_fetch ⟨404, "Not Found", []⟩ = http_fetch ⟨404, "Anything Else", []⟩
    ∧ ("Not Found" : String) ≠ "Anything Else"
    ∧ http_fetch ⟨404, "Not Found", []⟩ =
        .error (.http ("Invalid status: " ++ toString 404)) :=
  ⟨rfl, by decide, rfl⟩

/-- C8 (amended): when the final HTTP response has a non-2xx status, the
fetch fails with an error carrying the numeric status code, formatted as
`"Invalid status: {code}"`. -/
theorem http_fetch_non2xx_carries_code
    (r : HttpResponse) (h : (200 ≤ r.code && r.code ≤ 299) = false) :
    http_fetch r = .error (.http ("Invalid status: " ++ toString r.code)) := by
  simp [http_fetch, h, Error.fromHttp]

/-- C8 witness: a 503 response fails with the code in the message. -/
theorem http_fetch_non2xx_carries_code_witness :
    ((200 ≤ (503 : Nat) && (503 : Nat) ≤ 299) = false)
    ∧ http_fetch ⟨503, "Service Unavailable", []⟩ =
        .error (.http ("Invalid status: " ++ toString (503 : Nat))) :=
  ⟨by decide, http_fetch_non2xx_carries_code ⟨503, "Service Unavailable", []⟩
    (by decide)⟩

/-- C9: when the fetch itself failed, both `Unroll::to` and `Save::to`
return that transport error unchanged and leave the destination exactly as
it was, for every configuration and every destination state; the payload is
never decoded. -/
theorem fetch_error_propagates_untouched
    (e : Error) (uo : UnrollOptions) (so : SaveOptions) (d1 d2 : DestState) :
    Unroll.to (.error e) uo d1 = (some e, d1)
    ∧ Save.to (.error e) so d2 = (some e, d2) :=
  ⟨rfl, rfl⟩

/-- C10: with default unroll options, a pre-existing non-empty destination
directory has all children deleted before the payload is examined, so a
payload that is not valid gzip leaves the destination an empty directory
while the call fails with a decode error; the pre-call contents are not
restored. -/
theorem unroll_invalid_gzip_clears_dest
    (items : List Item) (h : items ≠ []) :
    Unroll.to (.ok .invalid) UnrollOptions.default (.dir items) =
      (some .decode, .dir [])
    ∧ DestState.dir ([] : List Item) ≠ .dir items := by
  refine ⟨rfl, fun heq => h (DestState.dir.inj heq).symm⟩

/-- C10 witness: a destination holding one directory entry. -/
theorem unroll_invalid_gzip_clears_dest_witness :
    ([Item.dir ["a"]] ≠ ([] : List Item))
    ∧ Unroll.to (.ok .invalid) UnrollOptions.default (.dir [Item.dir ["a"]]) =
        (some .decode, .dir [])
    ∧ DestState.dir ([] : List Item) ≠ .dir [Item.dir ["a"]] :=
  ⟨by decide, (unroll_invalid_gzip_clears_dest [Item.dir ["a"]] (by decide)).1,
    (unroll_invalid_gzip_clears_dest [Item.dir ["a"]] (by decide)).2⟩

end FetchUnroll
